import Mathlib

/-!
Verification development for the QBIT-5 snapshot pipeline
(`src/qbit5_snapshot.py`, `scripts/long_charts.py`,
`scripts/make_intraday_post.py`, `scripts/make_intraday_chart.py`,
`scripts/qbit5_pct_post.py`).

Prices are modelled as rationals, timestamps and calendar dates as
naturals.  Pandas frames are modelled as plain lists; NaN cells are
`Option.none`.
-/

namespace QBIT5

/-- One row of the concatenated multi-ticker minute frame `df_all`
(columns `Close`, `DateET`, `Ticker`, index `ts`). -/
structure Row where
  ts : Nat
  dateET : Nat
  ticker : String
  close : ℚ
deriving DecidableEq, Repr

/-- `MIN_SAMPLES_TODAY` from `qbit5_snapshot.py`. -/
def MIN_SAMPLES_TODAY : Nat := 30

/-- The fixed ticker list from `qbit5_snapshot.py`. -/
def TICKERS : List String := ["IONQ", "QBTS", "RGTI", "ARQQ", "QUBT"]

/-- Number of rows of `rows` that fall on calendar date `d`
(`df_all.groupby("DateET").size()` at key `d`). -/
def dateCount (rows : List Row) (d : Nat) : Nat :=
  (rows.filter (fun r => r.dateET = d)).length

/-- The distinct calendar dates occurring in `rows`. -/
def datesOf (rows : List Row) : List Nat :=
  (rows.map (fun r => r.dateET)).dedup

/-- `_select_latest_trading_date`: keep only the rows of the most recent
date whose sample count reaches `minSamples`; empty when no date
qualifies.  The source reads the threshold from the module constant
`MIN_SAMPLES_TODAY`; it is passed explicitly here. -/
def selectLatestTradingDate (rows : List Row) (minSamples : Nat) : List Row :=
  if rows = [] then rows
  else
    match ((datesOf rows).filter (fun d => minSamples ≤ dateCount rows d)).max? with
    | none => []
    | some d => rows.filter (fun r => r.dateET = d)

/-- The pivot cell at (timestamp `t`, ticker `tk`):
`pivot_table(..., values="Close", aggfunc="last")`. -/
def pivotCell (rows : List Row) (t : Nat) (tk : String) : Option ℚ :=
  ((rows.filter (fun r => r.ts = t ∧ r.ticker = tk)).map (fun r => r.close)).getLast?

/-- The distinct tickers of the frame (pivot columns). -/
def tickersOf (rows : List Row) : List String :=
  (rows.map (fun r => r.ticker)).dedup

/-- The pivot index: distinct timestamps in ascending order
(`.sort_index()`). -/
def timestampsOf (rows : List Row) : List Nat :=
  List.insertionSort (· ≤ ·) ((rows.map (fun r => r.ts)).dedup)

/-- The per-ticker session open, `pivot.ffill().bfill().iloc[0]`:
the first non-null cell down the ticker column. -/
def openOf (rows : List Row) (tk : String) : Option ℚ :=
  (timestampsOf rows).findSome? (fun t => pivotCell rows t tk)

/-- The cell of `rel = pivot.div(open_vals) - 1.0` at (`t`, `tk`);
null where the pivot cell is null. -/
def relCell (rows : List Row) (t : Nat) (tk : String) : Option ℚ :=
  (pivotCell rows t tk).bind (fun p => (openOf rows tk).map (fun o => p / o - 1))

/-- Pandas row mean with NaN skipped (`rel.mean(axis=1)`): null only when
every cell of the row is null. -/
def rowMean (cells : List (Option ℚ)) : Option ℚ :=
  if cells.filterMap id = [] then none
  else some ((cells.filterMap id).sum / (cells.filterMap id).length)

/-- `_make_equal_weight_intraday`: the per-timestamp equal-weight
percentage-vs-open series (`eq = rel.mean(axis=1) * 100.0`).  Every
pivot row holds at least one observation, so the NaN-skipping mean is
defined at every emitted timestamp. -/
def makeEqualWeightIntraday (rows : List Row) : List (Nat × ℚ) :=
  (timestampsOf rows).filterMap (fun t =>
    (rowMean ((tickersOf rows).map (fun tk => relCell rows t tk))).map
      (fun m => (t, m * 100)))

/-- A fetched panel of `make_intraday_post.py`: a ticker name together
with its minute series (`_load_1min_last_session` output, NaN dropped,
ascending time). -/
abbrev Panel : Type := String × List (Nat × ℚ)

/-- Whether panel `p` has an observation at timestamp `t`. -/
def hasTs (p : Panel) (t : Nat) : Bool := (p.2.lookup t).isSome

/-- The value of panel `p` at timestamp `t` (total with default `0`;
only evaluated at timestamps present in `p`). -/
def valAt (p : Panel) (t : Nat) : ℚ := ((p.2.lookup t).getD 0)

/-- All timestamps occurring in any panel, deduplicated and ascending. -/
def allTsSorted (panels : List Panel) : List Nat :=
  List.insertionSort (· ≤ ·) ((panels.flatMap (fun p => p.2.map Prod.fst)).dedup)

/-- The index of `pd.concat(panels, axis=1, join="inner").sort_index()`:
the ascending timestamps common to every panel. -/
def commonTs (panels : List Panel) : List Nat :=
  (allTsSorted panels).filter (fun t => panels.all (fun p => hasTs p t))

/-- The raw composite percentage of `_compose_equal_weight` at `t`
before smoothing: `pct = (rel.mean(axis=1) - 1) * 100` with
`rel = df / df.iloc[0]` and `t0` the first joined timestamp. -/
def rawPct (panels : List Panel) (t0 t : Nat) : ℚ :=
  ((panels.map (fun p => valAt p t / valAt p t0)).sum / panels.length - 1) * 100

/-- `pct.rolling(window=3, min_periods=1, center=True).mean()`:
at position `i` the mean of the entries at positions `i-1`, `i`, `i+1`
that exist. -/
def smooth3 (xs : List ℚ) : List ℚ :=
  (List.range xs.length).map (fun i =>
    let w := (xs.drop (i - 1)).take (if i = 0 then 2 else 3)
    w.sum / w.length)

/-- `_compose_equal_weight` of `make_intraday_post.py`.  An empty panel
list raises; an empty inner join makes `df.iloc[0]` raise.  Otherwise the
returned frame holds the centrally smoothed percentage series on the
common timestamps. -/
def composeEqualWeight (panels : List Panel) : Except String (List (Nat × ℚ)) :=
  if panels = [] then .error "no panels"
  else
    match commonTs panels with
    | [] => .error "single positional indexer is out-of-bounds"
    | t0 :: ts =>
      .ok ((t0 :: ts).zip (smooth3 ((t0 :: ts).map (rawPct panels t0))))

/-- `main` of `make_intraday_post.py` up to composition: raises when
fewer than two panels were fetched, otherwise composes. -/
def postChartCompose (panels : List Panel) : Except String (List (Nat × ℚ)) :=
  if panels.length < 2 then
    .error "failed to fetch minute data enough for composition"
  else composeEqualWeight panels

/-- The `last_pct` reported by `make_intraday_post.py`:
`float(intraday["pct"].iloc[-1])`, taken from the smoothed frame. -/
def postLastPct (panels : List Panel) : Except String ℚ :=
  (postChartCompose panels).map (fun out => ((out.getLast?).map Prod.snd).getD 0)

/-- Round to integer, ties to even, as Python `round` does on exact
values. -/
def roundHalfEven (q : ℚ) : ℤ :=
  if q - (⌊q⌋ : ℚ) = 1 / 2 then (if 2 ∣ ⌊q⌋ then ⌊q⌋ else ⌊q⌋ + 1)
  else round q

/-- Python `round(x, 2)` on an exact value. -/
def round2 (q : ℚ) : ℚ := (roundHalfEven (q * 100) : ℚ) / 100

/-- A JSON value as used in `qbit_5_stats.json`. -/
inductive JVal where
  | str (s : String)
  | num (q : ℚ)
  | null
  | arr (xs : List String)
deriving DecidableEq, Repr

/-- The `stats` dict literal written by `qbit5_snapshot.main` (step 5).
Rationals carry no NaN, so the `math.isnan` guard on `last_level`
collapses to the `None` check. -/
def statsJson (pct : ℚ) (updatedAt : String) (lastLevel : Option ℚ) :
    List (String × JVal) :=
  [("key", .str "QBIT-5"),
   ("pct_intraday", .num (round2 pct)),
   ("updated_at", .str updatedAt),
   ("unit", .str "pct"),
   ("last_level", match lastLevel with | none => .null | some l => .num (round2 l)),
   ("tickers", .arr TICKERS)]

/-- A CSV frame, column-oriented: column names with their value lists. -/
structure Frame where
  cols : List (String × List ℚ)
deriving DecidableEq, Repr

/-- The column names of a frame. -/
def colNames (f : Frame) : List String := f.cols.map Prod.fst

/-- A column of a frame by exact name. -/
def getCol (f : Frame) (c : String) : List ℚ := (f.cols.lookup c).getD []

/-- Row count of a frame. -/
def nRows (f : Frame) : Nat := ((f.cols.head?).map (fun c => c.2.length)).getD 0

/-- Result of `load_levels` in `long_charts.py`: either the series read
from the file, or the recompute-from-source fallback `_recalc_and_save`. -/
inductive LoadResult where
  | series (s : List (ℚ × ℚ))
  | recalc
deriving DecidableEq, Repr

/-- `load_levels`: the file parses only when the exact lowercase columns
`date` and `level` are both present and the frame is nonempty; anything
else falls back to recomputation.  `none` models a missing or unreadable
file. -/
def load_levels (f : Option Frame) : LoadResult :=
  match f with
  | none => .recalc
  | some fr =>
    if "date" ∈ colNames fr ∧ "level" ∈ colNames fr ∧ 0 < nRows fr then
      .series ((getCol fr "date").zip (getCol fr "level"))
    else .recalc

/-- `_load_last_level` of `qbit5_snapshot.py`: first exact column-name
match in the fixed alias list wins; returns the last value of that
column.  The source drops NaN before taking the last value; frame cells
here are exact rationals, so the column is taken as is. -/
def loadLastLevel (f : Frame) : Option ℚ :=
  ((["level", "Level", "close", "Close", "index_level"].find?
      (fun c => c ∈ colNames f)).bind
    (fun c => (getCol f c).getLast?))

/-- The artifact files under `docs/outputs` that the snapshot run may
touch; `none` means the file does not exist. -/
structure FS where
  intradayCsv : Option (List (Nat × ℚ))
  levelsCsv : Option Frame
  statsFile : Option (List (String × JVal))
  lastRun : Option String
deriving DecidableEq, Repr

/-- `main` of `qbit5_snapshot.py` given the fetched frame `dfAll` (the
`_download_1m_last_days` result) and the prior artifact state; returns
the exit code and the resulting artifact state.  `updatedAt` stands for
`_now_jst_str()`. -/
def mainSnapshot (updatedAt : String) (dfAll : List Row) (fs : FS) : Nat × FS :=
  if dfAll = [] then (0, fs)
  else
    let dfDay := selectLatestTradingDate dfAll MIN_SAMPLES_TODAY
    if dfDay = [] then (0, fs)
    else
      let intraday := makeEqualWeightIntraday dfDay
      if intraday = [] then (0, fs)
      else
        let pct := ((intraday.getLast?).map Prod.snd).getD 0
        let lastLevel := fs.levelsCsv.bind loadLastLevel
        (0, { fs with intradayCsv := some intraday,
                      statsFile := some (statsJson pct updatedAt lastLevel),
                      lastRun := some ("intraday snapshot OK @ " ++ updatedAt) })

/-- Forward fill of one price column (`df.ffill()` for a single ticker):
`acc` is the last value seen above. -/
def ffillCol (acc : Option ℚ) : List (Nat × Option ℚ) → List (Nat × Option ℚ)
  | [] => []
  | (d, v) :: rest =>
    let w := match v with | some x => some x | none => acc
    (d, w) :: ffillCol w rest

/-- The reference price of `_recalc_and_save` for one ticker column:
`df.ffill().dropna(how="all").loc[:BASE_DATE].iloc[-1]` — forward fill,
drop still-empty rows, keep dates at or before `base`, take the last
row.  `none` models the raising `iloc[-1]` on an empty selection (and an
empty base cell). -/
def baseRowValue (rows : List (Nat × Option ℚ)) (base : Nat) : Option ℚ :=
  (((((ffillCol none rows).filter (fun r => r.2.isSome)).filter
      (fun r => r.1 ≤ base)).getLast?).bind Prod.snd)

/-- The most recent actual observation at or before `base`: the last
non-null cell among rows with date at or before `base`.  This is the
reference the spec prescribes; `baseRowValue` is proved to refine it. -/
def lastObsAtOrBefore (rows : List (Nat × Option ℚ)) (base : Nat) : Option ℚ :=
  ((((rows.filter (fun r => r.2.isSome)).filter
      (fun r => r.1 ≤ base)).getLast?).bind Prod.snd)

/-- The error Python raises when a format spec like `.1f` is applied to
`None`. -/
def fmtErr : String := "unsupported format string passed to NoneType"

/-- Digit string of `n` left-padded with zeros to width `w`. -/
def padLeftZeros (w : Nat) (n : Nat) : String :=
  let s := toString n
  String.mk (List.replicate (w - s.length) (Char.ofNat 48)) ++ s

/-- The digits of `|q|` rounded to `prec` fractional places. -/
def fmtFixedAbs (prec : Nat) (q : ℚ) : String :=
  let n := (roundHalfEven (|q| * ((10 : ℚ) ^ prec))).toNat
  toString (n / 10 ^ prec) ++ "." ++ padLeftZeros prec (n % 10 ^ prec)

/-- Python `format(q, "+.2f")`: explicit sign, two decimals. -/
def fmtPlus2 (q : ℚ) : String :=
  (if q < 0 then "-" else "+") ++ fmtFixedAbs 2 q

/-- Python `format(q, ".1f")`: one decimal. -/
def fmtDot1 (q : ℚ) : String :=
  (if q < 0 then "-" else "") ++ fmtFixedAbs 1 q

/-- `TEMPLATE.format(pct=..., level=...)` of `qbit5_pct_post.py`.
Formatting `None` with `.1f` raises; a missing key raises `KeyError`. -/
def formatPost (stats : List (String × JVal)) : Except String String :=
  match stats.lookup "pct_intraday", stats.lookup "last_level" with
  | some (JVal.num p), some (JVal.num l) =>
    .ok ("【QBIT-5｜量子コンピューター指数】\n本日: " ++ fmtPlus2 p ++
         "%\n状況: " ++ fmtDot1 l ++
         "\n構成: IONQ/QBTS/RGTI/ARQQ/QUBT\n#桜Index #QBIT5")
  | some (JVal.num _), some JVal.null => .error fmtErr
  | _, _ => .error "KeyError"

/-- `main` of `qbit5_pct_post.py` given the parsed stats and the prior
content of `post_intraday.txt`: the text is formatted before
`write_text` runs, so a formatting exception leaves the file untouched
(the error result carries no new file state). -/
def pctPostMain (stats : List (String × JVal)) (_postFile : Option String) :
    Except String (Option String) :=
  match formatPost stats with
  | .error e => .error e
  | .ok t => .ok (some t)

/-- The tickers holding a pivot observation at timestamp `t`. -/
def observersAt (rows : List Row) (t : Nat) : List String :=
  (tickersOf rows).filter (fun tk => (pivotCell rows t tk).isSome)

/-- The price-to-open of ticker `tk` at `t`; the defaults are only
reached off the observer set. -/
def obsValue (rows : List Row) (t : Nat) (tk : String) : ℚ :=
  ((pivotCell rows t tk).getD 0) / ((openOf rows tk).getD 0)

/-- The composite the specification describes at timestamp `t`: the
arithmetic mean, over exactly the panels observing `t`, of price over
that panel's own first observation, as a percentage change.  Stated from
the specification's words for comparison with `composeEqualWeight`. -/
def specCompositePctAt (panels : List Panel) (t : Nat) : Option ℚ :=
  let obs := panels.filterMap (fun p =>
    (p.2.lookup t).bind (fun v => ((p.2.head?).map (fun fst => v / fst.2))))
  if obs = [] then none else some ((obs.sum / obs.length - 1) * 100)

/-- Proof helper: the value a forward fill carries after passing over
`P`, starting from `acc`. -/
def carry (acc : Option ℚ) (P : List (Nat × Option ℚ)) : Option ℚ :=
  P.foldl (fun a r => match r.2 with | some x => some x | none => a) acc

/-- Scenario C input: 5 samples on day 1 and 45 samples on day 2. -/
def scenRows : List Row :=
  (List.range 5).map (fun i => ⟨i, 1, "A", 100⟩) ++
  (List.range 45).map (fun i => ⟨i, 2, "A", 100⟩)

/-- Two tickers at the session open, only one at the next minute. -/
def cex2Rows : List Row :=
  [⟨0, 0, "A", 100⟩, ⟨0, 0, "B", 200⟩, ⟨1, 0, "A", 110⟩]

/-- Three panels; panel B misses timestamp 1. -/
def cex1Panels : List Panel :=
  [("A", [(0, 100), (1, 101), (2, 110)]),
   ("B", [(0, 100), (2, 110)]),
   ("C", [(0, 100), (1, 99), (2, 110)])]

/-- Two identical panels whose raw composite is [0, 0, 10]. -/
def cex5Panels : List Panel :=
  [("A", [(0, 100), (1, 100), (2, 110)]),
   ("B", [(0, 100), (1, 100), (2, 110)])]

/-- Thirty one-minute samples of a single ticker on one date. -/
def statsCexRows : List Row := List.replicate 30 ⟨0, 0, "A", 100⟩

/-- The artifact state with no file present. -/
def emptyFS : FS := ⟨none, none, none, none⟩

theorem perm_all_eq {α : Type} {l₁ l₂ : List α} (h : List.Perm l₁ l₂) (f : α → Bool) :
    l₁.all f = l₂.all f := by
  apply Bool.coe_iff_coe.mp
  simp only [List.all_eq_true]
  exact ⟨fun H a ha => H a (h.mem_iff.mpr ha), fun H a ha => H a (h.mem_iff.mp ha)⟩

theorem filterMap_eq_map_filter {α β : Type} (f : α → Option β) (d : β) (l : List α) :
    l.filterMap f =
      (l.filter (fun a => (f a).isSome)).map (fun a => (f a).getD d) := by
  induction l with
  | nil => rfl
  | cons a l ih => cases hf : f a <;>
      simp [List.filterMap_cons, List.filter_cons, hf, ih]

theorem findSome?_isSome_of_mem {α β : Type} {l : List α} {a : α} {f : α → Option β}
    (ha : a ∈ l) (hf : (f a).isSome) : (l.findSome? f).isSome := by
  induction l with
  | nil => cases ha
  | cons b l ih =>
    cases hb : f b
    · rcases List.mem_cons.mp ha with rfl | ha2
      · rw [hb] at hf; cases hf
      · simpa [List.findSome?_cons, hb] using ih ha2
    · simp [List.findSome?_cons, hb]

theorem sum_map_sub_one {α : Type} (g : α → ℚ) (l : List α) :
    (l.map (fun a => g a - 1)).sum = (l.map g).sum - l.length := by
  induction l with
  | nil => simp
  | cons a l ih => simp only [List.map_cons, List.sum_cons, ih, List.length_cons]
                   push_cast
                   ring

/-- C4: when the run obtains no usable data (empty fetch, no qualifying
session, or empty composite), `main` exits with code 0 and every prior
artifact is left unchanged. -/
theorem snapshot_no_usable_data_noop (u : String) (dfAll : List Row) (fs : FS)
    (h : dfAll = [] ∨ selectLatestTradingDate dfAll MIN_SAMPLES_TODAY = [] ∨
      makeEqualWeightIntraday (selectLatestTradingDate dfAll MIN_SAMPLES_TODAY) = []) :
    mainSnapshot u dfAll fs = (0, fs) := by
  rcases h with h | h | h
  · simp [mainSnapshot, h]
  · by_cases hd : dfAll = [] <;> simp [mainSnapshot, hd, h]
  · by_cases hd : dfAll = [] <;>
      by_cases hsel : selectLatestTradingDate dfAll MIN_SAMPLES_TODAY = [] <;>
      simp [mainSnapshot, hd, hsel, h]

theorem snapshot_no_usable_data_noop_witness :
    mainSnapshot "2025/01/01 09:00" []
        ⟨some [(0, 1)], some ⟨[("date", [1]), ("level", [100])]⟩,
         some (statsJson 1 "x" none), some "y"⟩ =
      (0, ⟨some [(0, 1)], some ⟨[("date", [1]), ("level", [100])]⟩,
           some (statsJson 1 "x" none), some "y"⟩) :=
  snapshot_no_usable_data_noop _ [] _ (Or.inl rfl)

/-- C10: a stats object whose `last_level` is JSON null — the very shape
the snapshot writer produces when no level is available — makes the post
formatter raise before anything is written. -/
theorem pct_post_null_last_level_raises (stats : List (String × JVal)) (p : ℚ)
    (f : Option String)
    (hp : stats.lookup "pct_intraday" = some (JVal.num p))
    (hl : stats.lookup "last_level" = some JVal.null) :
    pctPostMain stats f = Except.error fmtErr ∧
    ∀ (q : ℚ) (u : String), (statsJson q u none).lookup "last_level" = some JVal.null := by
  refine ⟨?_, fun q u => rfl⟩
  simp [pctPostMain, formatPost, hp, hl]

theorem pct_post_null_last_level_raises_witness :
    pctPostMain (statsJson 0 "x" none) none = Except.error fmtErr ∧
    ∀ (q : ℚ) (u : String), (statsJson q u none).lookup "last_level" = some JVal.null :=
  pct_post_null_last_level_raises (statsJson 0 "x" none) (round2 0) none rfl rfl

/-- C6 counterexample: a levels file with legacy columns `Date`/`Close`
is not resolved by `load_levels`; it falls back to recomputation instead
of yielding the series that the same data under `date`/`level` yields. -/
theorem load_levels_alias_cex :
    load_levels (some ⟨[("Date", [1, 2]), ("Close", [100, 110])]⟩) = LoadResult.recalc ∧
    load_levels (some ⟨[("date", [1, 2]), ("level", [100, 110])]⟩) =
      LoadResult.series [(1, 100), (2, 110)] ∧
    LoadResult.recalc ≠ LoadResult.series [((1 : ℚ), (100 : ℚ)), (2, 110)] := by
  refine ⟨rfl, rfl, by decide⟩

/-- C6 (amended): `load_levels` accepts only the exact lowercase columns
`date`/`level` and treats anything else as schema drift to recompute;
only the scalar reader `_load_last_level` resolves aliases, so the two
column sets agree on the last level but not on the loaded series. -/
theorem load_levels_alias_resolution (d l : List ℚ) :
    load_levels (some ⟨[("Date", d), ("Close", l)]⟩) = LoadResult.recalc ∧
    loadLastLevel ⟨[("Date", d), ("Close", l)]⟩ =
      loadLastLevel ⟨[("date", d), ("level", l)]⟩ := by
  exact ⟨rfl, rfl⟩

/-- C2 counterexample: at minute 1 only ticker A reports, yet the
snapshot composite emits the point (1, 10) — a 1-ticker composite. -/
theorem one_ticker_composite_emitted_cex :
    makeEqualWeightIntraday cex2Rows = [(0, 0), (1, 10)] ∧
    observersAt cex2Rows 1 = ["A"] := by
  constructor
  · simp +decide [makeEqualWeightIntraday, cex2Rows, timestampsOf, tickersOf,
      pivotCell, openOf, relCell, rowMean, List.insertionSort, List.orderedInsert,
      List.dedup, List.filterMap, List.findSome?, List.filter]
    norm_num
  · decide

theorem postCompose_ok_all_panels_observe {panels : List Panel}
    {out : List (Nat × ℚ)} (h : composeEqualWeight panels = Except.ok out) :
    ∀ t v, (t, v) ∈ out → ∀ p ∈ panels, hasTs p t = true := by
  unfold composeEqualWeight at h
  by_cases hp : panels = []
  · simp [hp] at h
  · rw [if_neg hp] at h
    cases hc : commonTs panels with
    | nil => rw [hc] at h; cases h
    | cons t0 ts =>
      rw [hc] at h
      have hout : out = (t0 :: ts).zip (smooth3 ((t0 :: ts).map (rawPct panels t0))) :=
        (Except.ok.inj h).symm
      intro t v hmem p hp2
      have ht : t ∈ t0 :: ts := (List.of_mem_zip (hout ▸ hmem)).1
      rw [← hc] at ht
      have := (List.mem_filter.mp ht).2
      exact (List.all_eq_true.mp this) p hp2

/-- C2 (amended): the post-chart path never emits a composite point with
fewer than 2 contributing tickers — `main` raises when fewer than two
panels were fetched and the inner join makes every fetched panel
contribute at every emitted timestamp — but the snapshot path has no
such guard and emits a point whenever at least one ticker reports. -/
theorem post_composite_needs_two_tickers (panels : List Panel)
    (out : List (Nat × ℚ)) (h : postChartCompose panels = Except.ok out) :
    ∀ t v, (t, v) ∈ out → 2 ≤ (panels.filter (fun p => hasTs p t)).length := by
  unfold postChartCompose at h
  by_cases hl : panels.length < 2
  · simp [hl] at h
  · rw [if_neg hl] at h
    intro t v hm
    have hall := postCompose_ok_all_panels_observe h t v hm
    rw [List.filter_eq_self.mpr hall]
    omega

theorem post_composite_needs_two_tickers_witness :
    2 ≤ (cex5Panels.filter (fun p => hasTs p 2)).length :=
  post_composite_needs_two_tickers cex5Panels
    [(0, 0), (1, 10 / 3), (2, 5)]
    (by simp +decide [postChartCompose, composeEqualWeight, commonTs, allTsSorted,
          hasTs, rawPct, smooth3, cex5Panels, valAt, List.insertionSort,
          List.orderedInsert, List.dedup, List.lookup, List.filter, List.range_succ]
        norm_num)
    2 5 (by norm_num)

/-- C8 counterexample: a successful run persists a stats object, and its
field set has no `base_date`. -/
theorem stats_missing_base_date_cex :
    (mainSnapshot "2025/01/01 09:00" statsCexRows emptyFS).2.statsFile ≠
      emptyFS.statsFile ∧
    "base_date" ∉
      (((mainSnapshot "2025/01/01 09:00" statsCexRows emptyFS).2.statsFile).getD
        []).map Prod.fst := by
  refine ⟨by decide, by decide⟩

/-- C8 (amended): every stats object a run persists has exactly the
fields key, pct_intraday (2 decimals), updated_at, unit = "pct",
last_level (null or 2 decimals) and tickers — with no base_date field. -/
theorem stats_fields (p : ℚ) (u : String) (l : Option ℚ) :
    (statsJson p u l).map Prod.fst =
      ["key", "pct_intraday", "updated_at", "unit", "last_level", "tickers"] ∧
    (statsJson p u l).lookup "pct_intraday" = some (JVal.num (round2 p)) ∧
    (statsJson p u l).lookup "unit" = some (JVal.str "pct") ∧
    (statsJson p u l).lookup "last_level" =
      some (match l with | none => JVal.null | some x => JVal.num (round2 x)) ∧
    ∀ (dfAll : List Row) (fs : FS),
      (mainSnapshot u dfAll fs).2.statsFile = fs.statsFile ∨
      ∃ q lv, (mainSnapshot u dfAll fs).2.statsFile = some (statsJson q u lv) := by
  refine ⟨rfl, rfl, rfl, rfl, ?_⟩
  intro dfAll fs
  by_cases h1 : dfAll = []
  · left; simp [mainSnapshot, h1]
  · by_cases h2 : selectLatestTradingDate dfAll MIN_SAMPLES_TODAY = []
    · left; simp [mainSnapshot, h1, h2]
    · by_cases h3 :
        makeEqualWeightIntraday (selectLatestTradingDate dfAll MIN_SAMPLES_TODAY) = []
      · left; simp [mainSnapshot, h1, h2, h3]
      · right
        refine ⟨((Option.map Prod.snd
            (makeEqualWeightIntraday
              (selectLatestTradingDate dfAll MIN_SAMPLES_TODAY)).getLast?).getD 0),
          fs.levelsCsv.bind loadLastLevel, ?_⟩
        simp [mainSnapshot, h1, h2, h3]

/-- C3: session selection returns the rows of the chronologically last
date whose total sample count reaches the threshold, and nothing when no
date qualifies; in particular counts of 5 and 45 select day 2 at
threshold 30 and nothing at threshold 50. -/
theorem session_selector_correct (rows : List Row) (m : Nat) :
    (selectLatestTradingDate rows m ≠ [] →
      ∃ d, m ≤ dateCount rows d ∧
        (∀ d2 ∈ datesOf rows, m ≤ dateCount rows d2 → d2 ≤ d) ∧
        selectLatestTradingDate rows m = rows.filter (fun r => r.dateET = d)) ∧
    (selectLatestTradingDate rows m = [] ↔
      ∀ d ∈ datesOf rows, dateCount rows d < m) ∧
    (selectLatestTradingDate scenRows 30).map (fun r => r.dateET) =
      List.replicate 45 2 ∧
    selectLatestTradingDate scenRows 50 = [] := by
  refine ⟨?_, ?_, by decide, by decide⟩ <;> unfold selectLatestTradingDate
  · by_cases hr : rows = []
    · simp [hr]
    · rw [if_neg hr]
      cases hm : ((datesOf rows).filter (fun d => m ≤ dateCount rows d)).max? with
      | none => intro hne; cases hne rfl
      | some d =>
        intro _
        rw [List.max?_eq_some_iff] at hm
        · obtain ⟨hdmem, hdmax⟩ := hm
          have hd := List.mem_filter.mp hdmem
          refine ⟨d, by simpa using hd.2, ?_, rfl⟩
          intro d2 hd2 hc2
          exact hdmax d2 (List.mem_filter.mpr ⟨hd2, by simpa using hc2⟩)
        all_goals simp [le_total, Nat.max_le]
  · by_cases hr : rows = []
    · subst hr; simp [datesOf]
    · rw [if_neg hr]
      cases hm : ((datesOf rows).filter (fun d => m ≤ dateCount rows d)).max? with
      | none =>
        have hnil := List.max?_eq_none_iff.mp hm
        rw [List.filter_eq_nil_iff] at hnil
        simp only [true_iff]
        intro d hd
        have := hnil d hd
        simpa using Nat.lt_of_not_le (by simpa using this)
      | some d =>
        rw [List.max?_eq_some_iff] at hm
        · obtain ⟨hdmem, _⟩ := hm
          have hd := List.mem_filter.mp hdmem
          have hcnt : m ≤ dateCount rows d := by simpa using hd.2
          constructor
          · intro hemp
            have hemp2 : rows.filter (fun r => r.dateET = d) = [] := hemp
            have hdd := hd.1
            unfold datesOf at hdd
            rw [List.mem_dedup, List.mem_map] at hdd
            obtain ⟨r, hr2, hrd⟩ := hdd
            have hrf : r ∈ rows.filter (fun r => r.dateET = d) :=
              List.mem_filter.mpr ⟨hr2, by simpa using hrd⟩
            rw [hemp2] at hrf
            cases hrf
          · intro hall
            exact absurd hcnt (Nat.not_le.mpr (hall d hd.1))
        all_goals simp [le_total, Nat.max_le]

theorem session_selector_correct_witness :
    ∃ d, 30 ≤ dateCount scenRows d ∧
      (∀ d2 ∈ datesOf scenRows, 30 ≤ dateCount scenRows d2 → d2 ≤ d) ∧
      selectLatestTradingDate scenRows 30 =
        scenRows.filter (fun r => r.dateET = d) :=
  (session_selector_correct scenRows 30).1 (by decide)

/-- C9: the equal-weight composition is invariant under reordering of
the input panels. -/
theorem compose_perm_invariant (p q : List Panel) (h : List.Perm p q) :
    composeEqualWeight p = composeEqualWeight q := by
  have hts : commonTs p = commonTs q := by
    have h1 : allTsSorted p = allTsSorted q := by
      apply List.eq_of_perm_of_sorted ?_ (List.sorted_insertionSort _ _)
        (List.sorted_insertionSort _ _)
      exact ((List.perm_insertionSort _ _).trans
        ((h.flatMap_right _).dedup)).trans (List.perm_insertionSort _ _).symm
    unfold commonTs
    rw [h1]
    exact List.filter_congr (fun t _ => perm_all_eq h _)
  have hraw : rawPct p = rawPct q := by
    funext t0 t
    unfold rawPct
    rw [(h.map (fun pl => valAt pl t / valAt pl t0)).sum_eq, h.length_eq]
  unfold composeEqualWeight
  by_cases hp : p = []
  · have hq : q = [] := by subst hp; exact h.nil_eq.symm
    rw [hp, hq]
  · have hq : q ≠ [] := by
      intro hq0; subst hq0; exact hp h.symm.nil_eq.symm
    rw [if_neg hp, if_neg hq, hts, hraw]

theorem compose_perm_invariant_witness :
    composeEqualWeight [("A", [(0, 100), (1, 110)]), ("B", [(0, 200), (1, 180)])] =
      composeEqualWeight [("B", [(0, 200), (1, 180)]), ("A", [(0, 100), (1, 110)])] :=
  compose_perm_invariant _ _ (by decide)

theorem smooth3_getLast (xs ys : List ℚ) (a b : ℚ) (hx : xs = ys ++ [a, b]) :
    (smooth3 xs).getLast? = some ((a + b) / 2) := by
  subst hx
  unfold smooth3
  have hlen : (ys ++ [a, b]).length = ys.length + 1 + 1 := by
    rw [List.length_append]; rfl
  rw [hlen, List.range_succ, List.map_append]
  simp only [List.map_cons, List.map_nil]
  rw [List.getLast?_concat]
  have hne : ys.length + 1 ≠ 0 := Nat.succ_ne_zero _
  simp only [hne, if_false, Nat.add_sub_cancel]
  rw [List.drop_left]
  norm_num

/-- C5 counterexample: the post script reports 5 as its last percentage
although the unsmoothed latest composite value is 10. -/
theorem post_reports_smoothed_last_cex :
    postLastPct cex5Panels = Except.ok 5 ∧
    commonTs cex5Panels = [0, 1, 2] ∧
    rawPct cex5Panels 0 2 = 10 ∧
    (5 : ℚ) ≠ 10 := by
  refine ⟨?_, by decide, ?_, by norm_num⟩
  · simp +decide [postLastPct, postChartCompose, composeEqualWeight, commonTs,
      allTsSorted, hasTs, rawPct, smooth3, cex5Panels, valAt, List.insertionSort,
      List.orderedInsert, List.dedup, List.lookup, List.filter, List.range_succ,
      Except.map, List.getLast?]
    norm_num
  · simp +decide [rawPct, cex5Panels, valAt, List.lookup]
    norm_num

/-- C5 (amended): the snapshot pipeline publishes `pct_intraday` as the
rounded unsmoothed latest composite value (its path applies no smoothing
at all), while the post script reports the last value of the centred
3-point moving average, which is the mean of the last two raw composite
values. -/
theorem last_stat_unsmoothed (u : String) (dfAll : List Row) (fs : FS)
    (h1 : dfAll ≠ [])
    (h2 : selectLatestTradingDate dfAll MIN_SAMPLES_TODAY ≠ [])
    (h3 : makeEqualWeightIntraday (selectLatestTradingDate dfAll MIN_SAMPLES_TODAY) ≠ []) :
    (((mainSnapshot u dfAll fs).2.statsFile).getD []).lookup "pct_intraday" =
      some (JVal.num (round2 ((Option.map Prod.snd
        (makeEqualWeightIntraday
          (selectLatestTradingDate dfAll MIN_SAMPLES_TODAY)).getLast?).getD 0))) ∧
    ∀ (xs ys : List ℚ) (a b : ℚ), xs = ys ++ [a, b] →
      (smooth3 xs).getLast? = some ((a + b) / 2) := by
  refine ⟨?_, fun xs ys a b hx => smooth3_getLast xs ys a b hx⟩
  simp [mainSnapshot, h1, h2, h3]
  rfl

theorem last_stat_unsmoothed_witness :
    (((mainSnapshot "x" statsCexRows emptyFS).2.statsFile).getD []).lookup
        "pct_intraday" =
      some (JVal.num (round2 ((Option.map Prod.snd
        (makeEqualWeightIntraday
          (selectLatestTradingDate statsCexRows MIN_SAMPLES_TODAY)).getLast?).getD 0))) ∧
    (smooth3 [0, 0, 10]).getLast? = some (((0 : ℚ) + 10) / 2) := by
  have H := last_stat_unsmoothed "x" statsCexRows emptyFS
    (by decide) (by decide) (by decide)
  exact ⟨H.1, H.2 [0, 0, 10] [0] 0 10 rfl⟩

/-- C1 counterexample: panel B misses minute 1, where A and C do report;
the post composition emits no point there at all (instead of the 4-of-5
style mean the claim requires), and the points it does emit carry the
smoothed 5, not the instantaneous mean 0. -/
theorem compose_drops_missing_ticker_cex :
    composeEqualWeight cex1Panels = Except.ok [(0, 5), (2, 5)] ∧
    specCompositePctAt cex1Panels 1 = some 0 ∧
    ([((0 : Nat), (5 : ℚ)), (2, 5)].all (fun pt => pt.1 ≠ 1) = true) ∧
    specCompositePctAt cex1Panels 0 = some 0 ∧ ((5 : ℚ) ≠ 0) := by
  refine ⟨?_, ?_, by decide, ?_, by norm_num⟩
  · simp +decide [composeEqualWeight, commonTs, allTsSorted, hasTs,
      rawPct, smooth3, cex1Panels, valAt, List.insertionSort, List.orderedInsert,
      List.dedup, List.lookup, List.filter, List.range_succ]
    norm_num
  · simp +decide [specCompositePctAt, cex1Panels, List.filterMap, List.lookup]
    norm_num
  · simp +decide [specCompositePctAt, cex1Panels, List.filterMap, List.lookup]
    norm_num

theorem openOf_isSome_of_pivot {rows : List Row} {t : Nat} {tk : String}
    (h : (pivotCell rows t tk).isSome) : (openOf rows tk).isSome := by
  have hobs : ∃ r ∈ rows, r.ts = t ∧ r.ticker = tk := by
    rw [Option.isSome_iff_exists] at h
    obtain ⟨q, hq⟩ := h
    have hq2 := List.mem_of_mem_getLast? hq
    rw [List.mem_map] at hq2
    obtain ⟨r, hr, _⟩ := hq2
    have := List.mem_filter.mp hr
    exact ⟨r, this.1, by simpa using this.2⟩
  obtain ⟨r, hr, hrt, hrtk⟩ := hobs
  have htmem : t ∈ timestampsOf rows := by
    unfold timestampsOf
    rw [List.mem_insertionSort, List.mem_dedup, List.mem_map]
    exact ⟨r, hr, hrt⟩
  exact findSome?_isSome_of_mem htmem h

theorem relCell_isSome (rows : List Row) (t : Nat) (tk : String) :
    (relCell rows t tk).isSome = (pivotCell rows t tk).isSome := by
  unfold relCell
  cases hp : pivotCell rows t tk with
  | none => rfl
  | some p =>
    have ho : (openOf rows tk).isSome := openOf_isSome_of_pivot (by rw [hp]; rfl)
    rw [Option.isSome_iff_exists] at ho
    obtain ⟨o, ho⟩ := ho
    simp [ho]

/-- C1 (amended): in the snapshot pipeline, each emitted composite value
is exactly 100 times (mean of price-to-open over exactly the tickers
observing that timestamp, minus 1) — a missing ticker contributes
nothing and no prior price is carried forward — while in the post script
a timestamp absent from any fetched panel is dropped entirely (every
panel observes every emitted timestamp) rather than averaged over the
remaining observers, and the emitted values are the smoothed series. -/
theorem composite_mean_over_observers (rows : List Row) (t : Nat) (v : ℚ)
    (hm : (t, v) ∈ makeEqualWeightIntraday rows) :
    observersAt rows t ≠ [] ∧
    v = 100 * (((observersAt rows t).map (obsValue rows t)).sum /
      (observersAt rows t).length - 1) ∧
    (∀ (panels : List Panel) (out : List (Nat × ℚ)),
      composeEqualWeight panels = Except.ok out →
      ∀ t2 v2, (t2, v2) ∈ out → ∀ p ∈ panels, hasTs p t2 = true) := by
  have main : observersAt rows t ≠ [] ∧
      v = 100 * (((observersAt rows t).map (obsValue rows t)).sum /
        (observersAt rows t).length - 1) := by
    unfold makeEqualWeightIntraday at hm
    rw [List.mem_filterMap] at hm
    obtain ⟨t2, ht2, heq⟩ := hm
    rw [Option.map_eq_some'] at heq
    obtain ⟨m, hmean, hpair⟩ := heq
    have hts : t2 = t := congrArg Prod.fst hpair
    have hv : m * 100 = v := congrArg Prod.snd hpair
    rw [hts] at hmean
    unfold rowMean at hmean
    by_cases hxs : ((tickersOf rows).map (fun tk => relCell rows t tk)).filterMap id = []
    · rw [if_pos hxs] at hmean; cases hmean
    · rw [if_neg hxs] at hmean
      have hm2 := Option.some.inj hmean
      have hxs_eq : ((tickersOf rows).map (fun tk => relCell rows t tk)).filterMap id
          = (observersAt rows t).map (fun tk => obsValue rows t tk - 1) := by
        rw [List.filterMap_map, Function.id_comp]
        rw [filterMap_eq_map_filter (fun tk => relCell rows t tk) 0]
        unfold observersAt
        rw [List.filter_congr (fun tk _ => relCell_isSome rows t tk)]
        apply List.map_congr_left
        intro tk htk
        have hpv : (pivotCell rows t tk).isSome := by
          simpa using (List.mem_filter.mp htk).2
        rw [Option.isSome_iff_exists] at hpv
        obtain ⟨p, hp⟩ := hpv
        have ho : (openOf rows tk).isSome := openOf_isSome_of_pivot (by rw [hp]; rfl)
        rw [Option.isSome_iff_exists] at ho
        obtain ⟨o, ho⟩ := ho
        unfold relCell obsValue
        rw [hp, ho]
        rfl
      rw [hxs_eq] at hm2 hxs
      have hobs : observersAt rows t ≠ [] := by
        intro h0; rw [h0] at hxs; exact hxs rfl
      refine ⟨hobs, ?_⟩
      have hlen0 : ((observersAt rows t).length : ℚ) ≠ 0 := by
        have hpos := List.length_pos.mpr hobs
        exact_mod_cast Nat.pos_iff_ne_zero.mp hpos
      rw [← hv, ← hm2]
      rw [sum_map_sub_one (obsValue rows t) (observersAt rows t)]
      rw [List.length_map]
      field_simp
      ring
  exact ⟨main.1, main.2, fun panels out ho => postCompose_ok_all_panels_observe ho⟩

theorem composite_mean_over_observers_witness :
    observersAt cex2Rows 0 ≠ [] ∧
    (0 : ℚ) = 100 * (((observersAt cex2Rows 0).map (obsValue cex2Rows 0)).sum /
      (observersAt cex2Rows 0).length - 1) := by
  have H := composite_mean_over_observers cex2Rows 0 0
    (by
      simp +decide [makeEqualWeightIntraday, cex2Rows, timestampsOf, tickersOf,
        pivotCell, openOf, relCell, rowMean, List.insertionSort, List.orderedInsert,
        List.dedup, List.filterMap, List.findSome?, List.filter])
  exact ⟨H.1, H.2.1⟩

theorem carry_append (acc : Option ℚ) (xs ys : List (Nat × Option ℚ)) :
    carry acc (xs ++ ys) = carry (carry acc xs) ys := by
  unfold carry
  rw [List.foldl_append]

theorem carry_cons (acc : Option ℚ) (d : Nat) (v : Option ℚ)
    (P : List (Nat × Option ℚ)) :
    carry acc ((d, v) :: P) =
      carry (match v with | some x => some x | none => acc) P := by
  unfold carry; rw [List.foldl_cons]

theorem ffillCol_map_fst (acc : Option ℚ) (P : List (Nat × Option ℚ)) :
    (ffillCol acc P).map Prod.fst = P.map Prod.fst := by
  induction P generalizing acc with
  | nil => rfl
  | cons r P ih => cases r with | mk d v => simp [ffillCol, ih]

theorem ffillCol_append (acc : Option ℚ) (xs ys : List (Nat × Option ℚ)) :
    ffillCol acc (xs ++ ys) = ffillCol acc xs ++ ffillCol (carry acc xs) ys := by
  induction xs generalizing acc with
  | nil => rfl
  | cons r xs ih =>
    cases r with | mk d v =>
    simp only [List.cons_append, ffillCol, carry_cons]
    congr 1
    exact ih _

theorem carry_filter_getLast (acc : Option ℚ) (P : List (Nat × Option ℚ)) :
    carry acc P =
      match (P.filter (fun r => r.2.isSome)).getLast? with
      | some r => r.2
      | none => acc := by
  induction P using List.reverseRecOn generalizing acc with
  | nil => rfl
  | append_singleton Q r ih =>
    cases r with | mk d v =>
    rw [carry_append]
    cases v with
    | none =>
      rw [List.filter_append]
      simp only [List.filter_cons, List.filter_nil, Option.isSome_none,
        Bool.false_eq_true, if_false, List.append_nil]
      exact ih acc
    | some x =>
      rw [List.filter_append]
      simp only [List.filter_cons, List.filter_nil, Option.isSome_some, if_true]
      rw [List.getLast?_concat]
      rfl

theorem ffill_filter_getLast (acc : Option ℚ) (P : List (Nat × Option ℚ))
    (hP : P ≠ []) :
    (((ffillCol acc P).filter (fun r => r.2.isSome)).getLast?).bind Prod.snd =
      carry acc P := by
  induction P using List.reverseRecOn generalizing acc with
  | nil => cases hP rfl
  | append_singleton Q r ih =>
    cases r with | mk d v =>
    rw [ffillCol_append, List.filter_append, carry_append]
    cases v with
    | some x =>
      have hw : ffillCol (carry acc Q) [(d, some x)] = [(d, some x)] := rfl
      have hstep : carry (carry acc Q) [(d, some x)] = some x := rfl
      rw [hw, hstep]
      simp only [List.filter_cons, List.filter_nil, Option.isSome_some, if_true]
      rw [List.getLast?_concat]
      rfl
    | none =>
      have hw : ffillCol (carry acc Q) [(d, (none : Option ℚ))] =
          [(d, carry acc Q)] := rfl
      have hstep : carry (carry acc Q) [(d, (none : Option ℚ))] = carry acc Q := rfl
      rw [hw, hstep]
      cases hcq : carry acc Q with
      | some c =>
        simp only [List.filter_cons, List.filter_nil, Option.isSome_some, if_true]
        rw [List.getLast?_concat]
        rfl
      | none =>
        simp only [List.filter_cons, List.filter_nil, Option.isSome_none,
          Bool.false_eq_true, if_false, List.append_nil]
        cases hQ : Q with
        | nil => rfl
        | cons q Q2 =>
          rw [← hQ]
          rw [ih acc (by rw [hQ]; exact List.cons_ne_nil _ _)]
          exact hcq

theorem all_dropWhile_gt (base : Nat) (rows : List (Nat × Option ℚ))
    (hp : List.Pairwise (fun a b => a.1 ≤ b.1) rows) :
    ∀ b ∈ rows.dropWhile (fun r => decide (r.1 ≤ base)), ¬ (b.1 ≤ base) := by
  induction rows with
  | nil => intro b hb; cases hb
  | cons a l ih =>
    rw [List.pairwise_cons] at hp
    obtain ⟨ha, hl⟩ := hp
    intro b hb
    rw [List.dropWhile_cons] at hb
    by_cases hab : a.1 ≤ base
    · rw [if_pos (by simpa using hab)] at hb
      exact ih hl b hb
    · rw [if_neg (by simpa using hab)] at hb
      rcases List.mem_cons.mp hb with rfl | hbl
      · exact hab
      · intro hble; exact hab (le_trans (ha b hbl) hble)

/-- C7: on a time-sorted series with at least one observation at or
before the base date, the `ffill`-then-`loc[:base]`-then-`iloc[-1]`
reference of `_recalc_and_save` is exactly the most recent observation
at or before the base date, and never an observation strictly after
it. -/
theorem base_ref_right_censoring (rows : List (Nat × Option ℚ)) (base : Nat)
    (hs : List.Pairwise (fun a b => a.1 ≤ b.1) rows)
    (hex : ∃ r ∈ rows, r.1 ≤ base ∧ r.2.isSome) :
    baseRowValue rows base = lastObsAtOrBefore rows base ∧
    ∃ d p, d ≤ base ∧ (d, some p) ∈ rows ∧ baseRowValue rows base = some p := by
  set A := rows.takeWhile (fun r => decide (r.1 ≤ base)) with hA
  set B := rows.dropWhile (fun r => decide (r.1 ≤ base)) with hB
  have hAB : A ++ B = rows := List.takeWhile_append_dropWhile _ _
  have hAle : ∀ a ∈ A, a.1 ≤ base := fun a ha => by
    simpa using List.mem_takeWhile_imp ha
  have hBgt : ∀ b ∈ B, ¬ (b.1 ≤ base) := all_dropWhile_gt base rows hs
  obtain ⟨r0, hr0, hr0le, hr0some⟩ := hex
  have hr0A : r0 ∈ A := by
    rcases List.mem_append.mp (show r0 ∈ A ++ B from hAB ▸ hr0) with h | h
    · exact h
    · exact absurd hr0le (hBgt r0 h)
  have hAne : A ≠ [] := List.ne_nil_of_mem hr0A
  have hcode : baseRowValue rows base = carry none A := by
    unfold baseRowValue
    rw [← hAB, ffillCol_append, List.filter_append, List.filter_append]
    have h2 : ((ffillCol (carry none A) B).filter (fun r => r.2.isSome)).filter
        (fun r => decide (r.1 ≤ base)) = [] := by
      rw [List.filter_eq_nil_iff]
      intro r hr
      have hrB := List.mem_of_mem_filter hr
      have : r.1 ∈ B.map Prod.fst := by
        rw [← ffillCol_map_fst (carry none A) B]
        exact List.mem_map_of_mem Prod.fst hrB
      rw [List.mem_map] at this
      obtain ⟨b, hb, hb1⟩ := this
      simpa [← hb1] using hBgt b hb
    have h1 : ((ffillCol none A).filter (fun r => r.2.isSome)).filter
        (fun r => decide (r.1 ≤ base)) =
        (ffillCol none A).filter (fun r => r.2.isSome) := by
      rw [List.filter_eq_self]
      intro r hr
      have hrA := List.mem_of_mem_filter hr
      have : r.1 ∈ A.map Prod.fst := by
        rw [← ffillCol_map_fst none A]
        exact List.mem_map_of_mem Prod.fst hrA
      rw [List.mem_map] at this
      obtain ⟨a, ha, ha1⟩ := this
      simpa [← ha1] using hAle a ha
    rw [h1, h2, List.append_nil]
    exact ffill_filter_getLast none A hAne
  have hfinal : carry none A =
      ((A.filter (fun r => r.2.isSome)).getLast?).bind Prod.snd := by
    rw [carry_filter_getLast]
    cases (A.filter (fun r => r.2.isSome)).getLast? <;> rfl
  have hspec : lastObsAtOrBefore rows base =
      ((A.filter (fun r => r.2.isSome)).getLast?).bind Prod.snd := by
    unfold lastObsAtOrBefore
    rw [← hAB, List.filter_append, List.filter_append]
    have h2 : (B.filter (fun r => r.2.isSome)).filter
        (fun r => decide (r.1 ≤ base)) = [] := by
      rw [List.filter_eq_nil_iff]
      intro r hr
      have hrB := List.mem_of_mem_filter hr
      simpa using hBgt r hrB
    have h1 : (A.filter (fun r => r.2.isSome)).filter
        (fun r => decide (r.1 ≤ base)) = A.filter (fun r => r.2.isSome) := by
      rw [List.filter_eq_self]
      intro r hr
      have hrA := List.mem_of_mem_filter hr
      simpa using hAle r hrA
    rw [h1, h2, List.append_nil]
  refine ⟨hcode.trans (hfinal.trans hspec.symm), ?_⟩
  have hAf : A.filter (fun r => r.2.isSome) ≠ [] :=
    List.ne_nil_of_mem (List.mem_filter.mpr ⟨hr0A, hr0some⟩)
  have hlast : ((A.filter (fun r => r.2.isSome)).getLast?).isSome :=
    List.getLast?_isSome.mpr hAf
  rw [Option.isSome_iff_exists] at hlast
  obtain ⟨rl, hrl⟩ := hlast
  have hrlf := List.mem_of_mem_getLast? hrl
  have hrlA : rl ∈ A := List.mem_of_mem_filter hrlf
  have hrlsome : rl.2.isSome := by simpa using (List.mem_filter.mp hrlf).2
  rw [Option.isSome_iff_exists] at hrlsome
  obtain ⟨p, hp⟩ := hrlsome
  refine ⟨rl.1, p, hAle rl hrlA, ?_, ?_⟩
  · have : rl ∈ rows := hAB ▸ List.mem_append_left B hrlA
    rwa [show (rl.1, some p) = rl from by rw [← hp]]
  · rw [hcode, hfinal, hrl]
    exact hp

theorem base_ref_right_censoring_witness :
    baseRowValue [(1, some 5), (2, none), (4, none), (7, some 9)] 5 =
      lastObsAtOrBefore [(1, some 5), (2, none), (4, none), (7, some 9)] 5 ∧
    ∃ d p, d ≤ 5 ∧ (d, some p) ∈ [(1, some 5), (2, none), (4, none), (7, some 9)] ∧
      baseRowValue [(1, some 5), (2, none), (4, none), (7, some 9)] 5 = some p :=
  base_ref_right_censoring _ 5 (by decide) (by decide)

end QBIT5
